import Mathlib

set_option linter.unusedVariables false

/-- JSON values as produced by the meal tools in agent_as_mcp_tool.py: null,
strings, arrays and objects. The program only ever serializes these four
shapes (meal fields are strings or None, ingredients are lists of strings,
envelopes are objects), so numbers and booleans are omitted. -/
inductive Json where
  | null : Json
  | str (s : String) : Json
  | arr (elems : List Json) : Json
  | obj (members : List (String × Json)) : Json

/-- Lower-case hexadecimal digit for a value below 16. -/
def hexDigitChar (n : Nat) : Char :=
  if n < 10 then Char.ofNat (48 + n) else Char.ofNat (87 + n)

/-- Escaping of one character inside a JSON string literal, modelled from
what json.dumps emits: quote and backslash get a backslash escape and
control characters become a unicode escape. Characters above the ASCII
range pass through here, where json.dumps with its default ensure_ascii
would emit a unicode escape instead; both forms are valid JSON string
content, so no stated property depends on that difference. -/
def escapeChar (c : Char) : List Char :=
  if c = '"' then ['\\', '"']
  else if c = '\\' then ['\\', '\\']
  else if c.toNat < 32 then
    ['\\', 'u', '0', '0', hexDigitChar (c.toNat / 16), hexDigitChar (c.toNat % 16)]
  else [c]

/-- Escaping of a character sequence inside a JSON string literal. -/
def escapeChars : List Char → List Char
  | [] => []
  | c :: cs => escapeChar c ++ escapeChars cs

/-- Whitespace characters JSON allows between tokens (also exactly the
characters json.dumps emits as formatting). -/
def isJsonWs (c : Char) : Bool :=
  c = ' ' || c = '\t' || c = '\n' || c = '\r'

/-- Skipping of inter-token whitespace. -/
def skipWs (l : List Char) : List Char := l.dropWhile isJsonWs

/-- The indentation run json.dumps(x, indent=2) emits at a nesting depth:
two spaces per level. -/
def indentChars (d : Nat) : List Char := List.replicate (2 * d) ' '

/-- The whitespace decoration a json.dumps call places around structural
characters: after the opening bracket of a nonempty container (at the
child depth), after the comma between items (at the child depth), after
the colon of a member, and before the closing bracket (at the container
depth). Scalars and empty containers carry no decoration. -/
structure DumpStyle where
  afterOpen : Nat → List Char
  afterComma : Nat → List Char
  afterColon : List Char
  beforeClose : Nat → List Char

/-- json.dumps without indent: the default separators put a space after
each comma and colon and no line breaks. -/
def compactStyle : DumpStyle where
  afterOpen := fun _ => []
  afterComma := fun _ => [' ']
  afterColon := [' ']
  beforeClose := fun _ => []

/-- json.dumps with indent=2: items are separated by a comma, a line
break and two-space-per-depth indentation, members keep the space after
the colon, and the closing bracket moves to its own indented line. -/
def indentStyle : DumpStyle where
  afterOpen := fun d => '\n' :: indentChars d
  afterComma := fun d => '\n' :: indentChars d
  afterColon := [' ']
  beforeClose := fun d => '\n' :: indentChars d

mutual

/-- Serialization of a JSON value at a nesting depth under a whitespace
style, modelled from json.dumps: the compact style yields json.dumps(x)
and the indent style yields json.dumps(x, indent=2); empty containers
stay compact in both, as json.dumps renders them. -/
def dumpSVal (st : DumpStyle) : Nat → Json → List Char
  | _, .null => ['n', 'u', 'l', 'l']
  | _, .str s => '"' :: (escapeChars s.data ++ ['"'])
  | _, .arr [] => ['[', ']']
  | d, .arr (x :: xs) =>
    '[' :: (st.afterOpen (d + 1) ++ (dumpSList st (d + 1) x xs ++ (st.beforeClose d ++ [']'])))
  | _, .obj [] => ['\x7b', '\x7d']
  | d, .obj ((k, v) :: kvs) =>
    '\x7b' :: (st.afterOpen (d + 1)
      ++ (dumpSMembers st (d + 1) k v kvs ++ (st.beforeClose d ++ ['\x7d'])))
termination_by d j => sizeOf j

/-- Serialization of the items of a nonempty JSON array, separated by a
comma and the style decoration. -/
def dumpSList (st : DumpStyle) : Nat → Json → List Json → List Char
  | d, x, [] => dumpSVal st d x
  | d, x, y :: ys => dumpSVal st d x ++ (',' :: (st.afterComma d ++ dumpSList st d y ys))
termination_by d x xs => sizeOf x + sizeOf xs

/-- Serialization of the members of a nonempty JSON object. -/
def dumpSMembers (st : DumpStyle) : Nat → String → Json → List (String × Json) → List Char
  | d, k, v, [] =>
    '"' :: (escapeChars k.data ++ ('"' :: ':' :: (st.afterColon ++ dumpSVal st d v)))
  | d, k, v, (k2, v2) :: kvs =>
    ('"' :: (escapeChars k.data ++ ('"' :: ':' :: (st.afterColon ++ dumpSVal st d v))))
      ++ (',' :: (st.afterComma d ++ dumpSMembers st d k2 v2 kvs))
termination_by d k v kvs => sizeOf v + sizeOf kvs

end

/-- json.dumps(x): the serialized string with the default separators. -/
def Json.dumps (j : Json) : String := String.mk (dumpSVal compactStyle 0 j)

/-- json.dumps(x, indent=2): the pretty-printed string the success paths
of both tool functions return. -/
def Json.dumpsIndent2 (j : Json) : String := String.mk (dumpSVal indentStyle 0 j)

/-- Boolean test for a hexadecimal digit character. -/
def isHexDigitB (c : Char) : Bool :=
  (('0' ≤ c) && (c ≤ '9')) || (('a' ≤ c) && (c ≤ 'f')) || (('A' ≤ c) && (c ≤ 'F'))

/-- Recognizer for the body of a JSON string literal (everything after the
opening quote, up to and including the closing quote); returns the rest of
the input on success. -/
def parseStrBody : List Char → Option (List Char)
  | [] => none
  | c :: r =>
    if c = '"' then some r
    else if c = '\\' then
      match r with
      | [] => none
      | e :: r1 =>
        if e = 'u' then
          match r1 with
          | h1 :: h2 :: h3 :: h4 :: r2 =>
            if isHexDigitB h1 && isHexDigitB h2 && isHexDigitB h3 && isHexDigitB h4 then
              parseStrBody r2
            else none
          | _ => none
        else if e = '"' || e = '\\' || e = '/' || e = 'b' || e = 'f' || e = 'n' || e = 'r' || e = 't' then
          parseStrBody r1
        else none
    else if 32 ≤ c.toNat then parseStrBody r else none

mutual

/-- Fuel-bounded recognizer for one JSON value (null, string, array or
object — the shapes the program emits), skipping the whitespace JSON
permits between tokens; returns the rest of the input on success.
Accepting only these shapes keeps the recognizer sound: whatever it
accepts is syntactically valid JSON. -/
def parseVal : Nat → List Char → Option (List Char)
  | 0, _ => none
  | n + 1, l =>
    match skipWs l with
    | [] => none
    | c :: r =>
      if c = 'n' then
        match r with
        | c1 :: c2 :: c3 :: r2 => if c1 = 'u' && c2 = 'l' && c3 = 'l' then some r2 else none
        | _ => none
      else if c = '"' then parseStrBody r
      else if c = '[' then
        if (skipWs r).head? = some ']' then some ((skipWs r).drop 1) else parseElems n r
      else if c = '\x7b' then
        if (skipWs r).head? = some '\x7d' then some ((skipWs r).drop 1) else parseMembers n r
      else none

/-- Fuel-bounded recognizer for one or more comma-separated array items
followed by a closing bracket, whitespace allowed around the separators. -/
def parseElems : Nat → List Char → Option (List Char)
  | 0, _ => none
  | n + 1, l =>
    match parseVal n l with
    | some r =>
      match skipWs r with
      | c :: r2 => if c = ',' then parseElems n r2 else if c = ']' then some r2 else none
      | [] => none
    | none => none

/-- Fuel-bounded recognizer for one or more comma-separated object
members followed by a closing brace, whitespace allowed around the
separators. -/
def parseMembers : Nat → List Char → Option (List Char)
  | 0, _ => none
  | n + 1, l =>
    match skipWs l with
    | [] => none
    | c :: r =>
      if c = '"' then
        match parseStrBody r with
        | some r1 =>
          match skipWs r1 with
          | c2 :: r2 =>
            if c2 = ':' then
              match parseVal n r2 with
              | some r3 =>
                match skipWs r3 with
                | c3 :: r4 =>
                  if c3 = ',' then parseMembers n r4
                  else if c3 = '\x7d' then some r4
                  else none
                | [] => none
              | none => none
            else none
          | [] => none
        | none => none
      else none

end

/-- Decides whether a string is a syntactically valid JSON document (of the
shapes the program emits): the recognizer must consume the whole string. -/
def jsonValid (s : String) : Bool :=
  match parseVal (s.data.length + 1) s.data with
  | some [] => true
  | _ => false

mutual

/-- Node count of a JSON value, used as a fuel bound for the recognizer. -/
def sizeV : Json → Nat
  | .null => 1
  | .str _ => 1
  | .arr [] => 1
  | .arr (x :: xs) => 1 + sizeL x xs
  | .obj [] => 1
  | .obj ((_, v) :: kvs) => 1 + sizeM v kvs
termination_by j => sizeOf j

/-- Fuel bound for a nonempty array element list. -/
def sizeL : Json → List Json → Nat
  | x, [] => 1 + sizeV x
  | x, y :: ys => 1 + sizeV x + sizeL y ys
termination_by x xs => sizeOf x + sizeOf xs

/-- Fuel bound for a nonempty object member list. -/
def sizeM : Json → List (String × Json) → Nat
  | v, [] => 1 + sizeV v
  | v, (_, v2) :: kvs => 1 + sizeV v + sizeM v2 kvs
termination_by v kvs => sizeOf v + sizeOf kvs

end

/-- The apostrophe as a one-character string, used inside some message
strings of the program. -/
def aposS : String := "\x27"

/-- A raw meal record from TheMealDB API: a finite mapping from string keys
to optional strings (a key can be absent, or present with a null value).
Modelled as an association list; Python dict lookup takes the first match. -/
def RawMeal : Type := List (String × Option String)

/-- Python meal.get(key): none both when the key is absent and when its
value is null, exactly as dict.get returns None in both cases. -/
def RawMeal.get (meal : RawMeal) (key : String) : Option String :=
  match List.lookup key meal with
  | none => none
  | some v => v

/-- Python truthiness of the meal dict: an empty dict is falsy. -/
def RawMeal.isEmptyMeal (meal : RawMeal) : Bool :=
  match meal with
  | [] => true
  | _ => false

/-- Python str.isspace for one ASCII character: the whitespace characters
str.strip removes (space, tab, newline, carriage return, vertical tab,
form feed; the Unicode space classes are not exercised by this program). -/
def isSpaceChar (c : Char) : Bool :=
  c = ' ' || c = '\t' || c = '\n' || c = '\r' || c = Char.ofNat 11 || c = Char.ofNat 12

/-- Python str.strip(): removes leading and trailing whitespace. -/
def pyStrip (s : String) : String :=
  String.mk (((s.data.dropWhile isSpaceChar).reverse.dropWhile isSpaceChar).reverse)

/-- The message of the AttributeError Python raises when strip() is called
on None, as str(e) renders it. -/
def noneStripError : String :=
  aposS ++ "NoneType" ++ aposS ++ " object has no attribute " ++ aposS ++ "strip" ++ aposS

/-- One iteration of the ingredient loop of _clean_meal_data (lines 56-59):
reads strIngredient-i and strMeasure-i; when the ingredient is present and
non-blank it builds the joined entry, calling strip() on the measure even
when the measure is absent (None), which raises AttributeError. Returns
none when the index contributes no entry. -/
def cleanIngredient (meal : RawMeal) (i : Nat) : Except String (Option String) :=
  let ing := meal.get ("strIngredient" ++ toString i)
  let measure := meal.get ("strMeasure" ++ toString i)
  match ing with
  | none => .ok none
  | some s =>
    if pyStrip s = "" then .ok none
    else
      match measure with
      | none => .error noneStripError
      | some t => .ok (some (pyStrip (pyStrip t ++ " " ++ pyStrip s)))

/-- The ingredient loop of _clean_meal_data over the given index list
(the source iterates range(1, 21)); the first raising index aborts. -/
def ingredientsLoop (meal : RawMeal) : List Nat → Except String (List String)
  | [] => .ok []
  | i :: rest =>
    match cleanIngredient meal i with
    | .error e => .error e
    | .ok entry =>
      match ingredientsLoop meal rest with
      | .error e => .error e
      | .ok tail =>
        match entry with
        | some s => .ok (s :: tail)
        | none => .ok tail

/-- Lifting of an optional string to JSON: None serializes as null. -/
def jOpt : Option String → Json
  | none => Json.null
  | some s => Json.str s

/-- The normalizer _clean_meal_data (lines 45-70): empty/falsy input yields
the empty dict, otherwise the twenty ingredient indices are combined and
the fixed field set is assembled in source order. The Except models the
exception the ingredient loop can raise. -/
def _clean_meal_data (meal : RawMeal) : Except String Json :=
  if meal.isEmptyMeal then .ok (Json.obj [])
  else
    match ingredientsLoop meal (List.range' 1 20) with
    | .error e => .error e
    | .ok ingredients =>
      .ok (Json.obj
        [("id", jOpt (meal.get "idMeal")),
         ("name", jOpt (meal.get "strMeal")),
         ("category", jOpt (meal.get "strCategory")),
         ("area", jOpt (meal.get "strArea")),
         ("instructions", jOpt (meal.get "strInstructions")),
         ("ingredients", Json.arr (ingredients.map Json.str)),
         ("tags", jOpt (meal.get "strTags")),
         ("youtube_link", jOpt (meal.get "strYoutube"))])

/-- Outcome of the HTTP request plus body parsing, as seen by the tool
functions: either requests.get itself raised (transport failure), or a
response arrived with a status code and a body. The body is the outcome of
response.json() followed by reading the meals field: an exception message,
or the meals value (none models both a missing field and a null value,
which dict.get conflates; the expected shape per the API contract is a
list of RawMeal or null). -/
inductive ApiResult where
  | transportError (msg : String) : ApiResult
  | response (status : Nat) (body : Except String (Option (List RawMeal))) : ApiResult

/-- requests Response.raise_for_status: raises HTTPError exactly for
status codes 400-599 (client and server errors), as documented by the
requests library. -/
def raise_for_status (status : Nat) : Except String Unit :=
  if 400 ≤ status ∧ status < 500 then .error (toString status ++ " Client Error")
  else if 500 ≤ status ∧ status < 600 then .error (toString status ++ " Server Error")
  else .ok ()

/-- The try-block of get_random_meal (lines 81-90): raise on bad status,
parse, return the No-meal-found error envelope on an empty or missing
result set, otherwise normalize the first record. -/
def get_random_meal_try : ApiResult → Except String Json
  | .transportError msg => .error msg
  | .response status body =>
    match raise_for_status status with
    | .error e => .error e
    | .ok _ =>
      match body with
      | .error e => .error e
      | .ok none => .ok (Json.obj [("error", Json.str "No meal found.")])
      | .ok (some []) => .ok (Json.obj [("error", Json.str "No meal found.")])
      | .ok (some (m :: _)) =>
        match _clean_meal_data m with
        | .error e => .error e
        | .ok meal => .ok meal

/-- get_random_meal (lines 73-93): any exception from the try-block is
caught and converted into the serialized Error envelope. -/
def get_random_meal (api : ApiResult) : Json :=
  match get_random_meal_try api with
  | .ok j => j
  | .error e => Json.obj [("error", Json.str ("Failed to fetch random meal: " ++ e))]

/-- The not-found envelope of get_meal_by_name (line 116). -/
def notFoundJson (meal_name : String) : Json :=
  Json.obj
    [("status", Json.str "not_found"),
     ("message", Json.str ("No meals found with the name " ++ aposS ++ meal_name ++ aposS ++ "."))]

/-- The try-block of get_meal_by_name (lines 109-120): raise on bad
status, parse, return the not-found envelope on an empty or missing result
set, otherwise normalize the first three records in order. -/
def get_meal_by_name_try (meal_name : String) : ApiResult → Except String Json
  | .transportError msg => .error msg
  | .response status body =>
    match raise_for_status status with
    | .error e => .error e
    | .ok _ =>
      match body with
      | .error e => .error e
      | .ok none => .ok (notFoundJson meal_name)
      | .ok (some []) => .ok (notFoundJson meal_name)
      | .ok (some (m :: rest)) =>
        match List.mapM _clean_meal_data ((m :: rest).take 3) with
        | .error e => .error e
        | .ok results => .ok (Json.arr results)

/-- get_meal_by_name (lines 96-123): any exception from the try-block is
caught and converted into the serialized Error envelope. -/
def get_meal_by_name (meal_name : String) (api : ApiResult) : Json :=
  match get_meal_by_name_try meal_name api with
  | .ok j => j
  | .error e => Json.obj [("error", Json.str ("Failed to search for meal: " ++ e))]

/-- The string get_random_meal returns, one json.dumps call per return
statement of lines 81-93: the empty-result and caught-exception Error
envelopes (lines 87, 93) use plain json.dumps, the success path (line 90)
uses json.dumps(meal, indent=2). -/
def get_random_meal_str (api : ApiResult) : String :=
  match api with
  | .transportError msg =>
    Json.dumps (Json.obj [("error", Json.str ("Failed to fetch random meal: " ++ msg))])
  | .response status body =>
    match raise_for_status status with
    | .error e =>
      Json.dumps (Json.obj [("error", Json.str ("Failed to fetch random meal: " ++ e))])
    | .ok _ =>
      match body with
      | .error e =>
        Json.dumps (Json.obj [("error", Json.str ("Failed to fetch random meal: " ++ e))])
      | .ok none => Json.dumps (Json.obj [("error", Json.str "No meal found.")])
      | .ok (some []) => Json.dumps (Json.obj [("error", Json.str "No meal found.")])
      | .ok (some (m :: _)) =>
        match _clean_meal_data m with
        | .error e =>
          Json.dumps (Json.obj [("error", Json.str ("Failed to fetch random meal: " ++ e))])
        | .ok meal => Json.dumpsIndent2 meal

/-- The string get_meal_by_name returns, one json.dumps call per return
statement of lines 109-123: the not-found envelope (line 116) and the
caught-exception Error envelope (line 123) use plain json.dumps, the
success path (line 120) uses json.dumps(results, indent=2). -/
def get_meal_by_name_str (meal_name : String) (api : ApiResult) : String :=
  match api with
  | .transportError msg =>
    Json.dumps (Json.obj [("error", Json.str ("Failed to search for meal: " ++ msg))])
  | .response status body =>
    match raise_for_status status with
    | .error e =>
      Json.dumps (Json.obj [("error", Json.str ("Failed to search for meal: " ++ e))])
    | .ok _ =>
      match body with
      | .error e =>
        Json.dumps (Json.obj [("error", Json.str ("Failed to search for meal: " ++ e))])
      | .ok none => Json.dumps (notFoundJson meal_name)
      | .ok (some []) => Json.dumps (notFoundJson meal_name)
      | .ok (some (m :: rest)) =>
        match List.mapM _clean_meal_data ((m :: rest).take 3) with
        | .error e =>
          Json.dumps (Json.obj [("error", Json.str ("Failed to search for meal: " ++ e))])
        | .ok results => Json.dumpsIndent2 (Json.arr results)

/-- The fixed prefix of the search URL (line 111). -/
def SEARCH_URL_BASE : String := "https://www.themealdb.com/api/json/v1/1/search.php?s="

/-- The request URL built by get_meal_by_name (line 111): the f-string
interpolates the raw meal name with no encoding. -/
def searchUrl (meal_name : String) : String := SEARCH_URL_BASE ++ meal_name

/-- Upper-case hexadecimal digit for a value below 16. -/
def hexDigitUpper (n : Nat) : Char :=
  if n < 10 then Char.ofNat (48 + n) else Char.ofNat (55 + n)

/-- Modelled from the spec: percent-encoding of a URL query component
(the spec requires the implementer to percent-encode the name before
building the request URL). Unreserved characters pass through; every other
character is replaced by a percent sign and two hex digits of its code
(stated for the ASCII range, which covers the inputs considered). -/
def percent_encode (s : String) : String :=
  String.mk (s.data.foldr
    (fun c acc =>
      if c.isAlphanum || c = '-' || c = '.' || c = '_' || c = '~' then c :: acc
      else '%' :: hexDigitUpper (c.toNat / 16) :: hexDigitUpper (c.toNat % 16) :: acc)
    [])

/-- Lookup of a key among the members of a JSON object. -/
def Json.objLookup (key : String) : Json → Option Json
  | .obj members => List.lookup key members
  | _ => none

/-- The function-invocation context seen by the middleware: the invoked
tool name and the result slot the pipeline fills in. -/
structure FunctionInvocationContext where
  functionName : String
  result : Option String

/-- Observable events of one middleware run: a print to the log, or the
single point where control is forwarded to the wrapped pipeline. -/
inductive MWEvent where
  | print (s : String) : MWEvent
  | forward (c : FunctionInvocationContext) : MWEvent

/-- Whether an event is the forwarding of the call. -/
def MWEvent.isForward : MWEvent → Bool
  | .forward _ => true
  | _ => false

/-- Python str() of the result slot, as the second print renders it. -/
def str_of_result : Option String → String
  | none => "None"
  | some s => s

/-- logging_function_middleware (lines 166-173), with the effects made
explicit as an event trace: print the tool name, forward to next exactly
once, and print the result; when next raises, the second print does not
run and the exception propagates unchanged (there is no try around it).
The continuation is modelled as a function from the context to either the
updated context or a raised exception. -/
def logging_function_middleware
    (next : FunctionInvocationContext → Except String FunctionInvocationContext)
    (context : FunctionInvocationContext) :
    Except String FunctionInvocationContext × List MWEvent :=
  match next context with
  | .ok c2 =>
    (.ok c2,
      [MWEvent.print ("Calling function: " ++ context.functionName),
       MWEvent.forward context,
       MWEvent.print ("Function result: " ++ str_of_result c2.result)])
  | .error e =>
    (.error e,
      [MWEvent.print ("Calling function: " ++ context.functionName),
       MWEvent.forward context])

/-- The class of inputs the amended C4 covers: the request itself raised,
or the response status is in the 400-599 range that raise_for_status
raises on. -/
def httpFailure : ApiResult → Prop
  | .transportError _ => True
  | .response status _ => 400 ≤ status ∧ status < 600

theorem sizeV_pos (j : Json) : 1 ≤ sizeV j := by
  cases j with
  | null => simp [sizeV]
  | str s => simp [sizeV]
  | arr xs =>
    cases xs with
    | nil => simp [sizeV]
    | cons x t => simp [sizeV]
  | obj kvs =>
    cases kvs with
    | nil => simp [sizeV]
    | cons kv t =>
      obtain ⟨k, v⟩ := kv
      simp [sizeV]

theorem sizeL_pos (x : Json) (xs : List Json) : 1 ≤ sizeL x xs := by
  cases xs with
  | nil => simp [sizeL]
  | cons y ys => simp [sizeL]; omega

theorem sizeM_pos (v : Json) (kvs : List (String × Json)) : 1 ≤ sizeM v kvs := by
  cases kvs with
  | nil => simp [sizeM]
  | cons kv t =>
    obtain ⟨k2, v2⟩ := kv
    simp [sizeM]; omega

theorem isHexDigitB_hexDigitChar : ∀ n : Nat, n < 16 → isHexDigitB (hexDigitChar n) = true := by
  decide

theorem parseStrBody_quote (rest : List Char) : parseStrBody ('"' :: rest) = some rest := by
  rw [parseStrBody.eq_def]
  simp

theorem parseStrBody_escChar (c : Char) (t : List Char) :
    parseStrBody (escapeChar c ++ t) = parseStrBody t := by
  by_cases h1 : c = '"'
  · subst h1
    have e1 : escapeChar '"' = ['\\', '"'] := by simp [escapeChar]
    rw [e1, parseStrBody.eq_def]
    simp
  · by_cases h2 : c = '\\'
    · subst h2
      have e1 : escapeChar '\\' = ['\\', '\\'] := by simp [escapeChar]
      rw [e1, parseStrBody.eq_def]
      simp
    · by_cases h3 : c.toNat < 32
      · have e1 : escapeChar c
            = ['\\', 'u', '0', '0', hexDigitChar (c.toNat / 16), hexDigitChar (c.toNat % 16)] := by
          simp [escapeChar, h1, h2, h3]
        have hx1 := isHexDigitB_hexDigitChar (c.toNat / 16) (by omega)
        have hx2 := isHexDigitB_hexDigitChar (c.toNat % 16) (Nat.mod_lt _ (by omega))
        have h0 : isHexDigitB '0' = true := by decide
        rw [e1, parseStrBody.eq_def]
        simp [h0, hx1, hx2]
      · have h4 : 32 ≤ c.toNat := by omega
        have e1 : escapeChar c = [c] := by simp [escapeChar, h1, h2, h3]
        rw [e1]
        show parseStrBody (c :: t) = parseStrBody t
        rw [parseStrBody.eq_def]
        simp [h1, h2, h4]

theorem parseStrBody_escape (cs : List Char) (rest : List Char) :
    parseStrBody (escapeChars cs ++ ('"' :: rest)) = some rest := by
  induction cs with
  | nil =>
    show parseStrBody ([] ++ ('"' :: rest)) = some rest
    rw [List.nil_append]
    exact parseStrBody_quote rest
  | cons c cs ih =>
    show parseStrBody ((escapeChar c ++ escapeChars cs) ++ ('"' :: rest)) = some rest
    rw [List.append_assoc, parseStrBody_escChar]
    exact ih

theorem skipWs_cons_of_ws (c : Char) (l : List Char) (h : isJsonWs c = true) :
    skipWs (c :: l) = skipWs l := by
  simp [skipWs, List.dropWhile_cons, h]

theorem skipWs_cons_of_not_ws (c : Char) (l : List Char) (h : isJsonWs c = false) :
    skipWs (c :: l) = c :: l := by
  simp [skipWs, List.dropWhile_cons, h]

theorem skipWs_replicate_space (m : Nat) (l : List Char) :
    skipWs (List.replicate m ' ' ++ l) = skipWs l := by
  induction m with
  | zero => rfl
  | succ m ih =>
    rw [List.replicate_succ, List.cons_append, skipWs_cons_of_ws ' ' _ (by decide)]
    exact ih

theorem skipWs_indentChars (d : Nat) (l : List Char) :
    skipWs (indentChars d ++ l) = skipWs l :=
  skipWs_replicate_space (2 * d) l

theorem parseVal_congr (n : Nat) (l1 l2 : List Char) (h : skipWs l1 = skipWs l2) :
    parseVal n l1 = parseVal n l2 := by
  cases n with
  | zero => rw [parseVal.eq_def, parseVal.eq_def]
  | succ n =>
    rw [parseVal.eq_def, parseVal.eq_def]
    simp only [h]

theorem parseElems_congr (n : Nat) (l1 l2 : List Char) (h : skipWs l1 = skipWs l2) :
    parseElems n l1 = parseElems n l2 := by
  cases n with
  | zero => rw [parseElems.eq_def, parseElems.eq_def]
  | succ n =>
    rw [parseElems.eq_def, parseElems.eq_def]
    simp only [parseVal_congr n l1 l2 h]

theorem parseMembers_congr (n : Nat) (l1 l2 : List Char) (h : skipWs l1 = skipWs l2) :
    parseMembers n l1 = parseMembers n l2 := by
  cases n with
  | zero => rw [parseMembers.eq_def, parseMembers.eq_def]
  | succ n =>
    rw [parseMembers.eq_def, parseMembers.eq_def]
    simp only [h]

theorem dumpSVal_head (st : DumpStyle) (d : Nat) (j : Json) :
    ∃ c t, dumpSVal st d j = c :: t ∧ (c = 'n' ∨ c = '"' ∨ c = '[' ∨ c = '\x7b') := by
  cases j with
  | null => exact ⟨'n', ['u', 'l', 'l'], by simp [dumpSVal], Or.inl rfl⟩
  | str s => exact ⟨'"', escapeChars s.data ++ ['"'], by simp [dumpSVal], Or.inr (Or.inl rfl)⟩
  | arr xs =>
    cases xs with
    | nil => exact ⟨'[', [']'], by simp [dumpSVal], Or.inr (Or.inr (Or.inl rfl))⟩
    | cons x t =>
      exact ⟨'[', st.afterOpen (d + 1) ++ (dumpSList st (d + 1) x t ++ (st.beforeClose d ++ [']'])),
        by simp [dumpSVal], Or.inr (Or.inr (Or.inl rfl))⟩
  | obj kvs =>
    cases kvs with
    | nil => exact ⟨'\x7b', ['\x7d'], by simp [dumpSVal], Or.inr (Or.inr (Or.inr rfl))⟩
    | cons kv t =>
      obtain ⟨k, v⟩ := kv
      exact ⟨'\x7b',
        st.afterOpen (d + 1) ++ (dumpSMembers st (d + 1) k v t ++ (st.beforeClose d ++ ['\x7d'])),
        by simp [dumpSVal], Or.inr (Or.inr (Or.inr rfl))⟩

theorem dumpSList_head (st : DumpStyle) (d : Nat) (x : Json) (xs : List Json) :
    ∃ c t, dumpSList st d x xs = c :: t ∧ (c = 'n' ∨ c = '"' ∨ c = '[' ∨ c = '\x7b') := by
  obtain ⟨c, t, he, hd⟩ := dumpSVal_head st d x
  cases xs with
  | nil => exact ⟨c, t, by simp [dumpSList, he], hd⟩
  | cons y ys =>
    exact ⟨c, t ++ (',' :: (st.afterComma d ++ dumpSList st d y ys)), by simp [dumpSList, he], hd⟩

theorem dumpSMembers_head (st : DumpStyle) (d : Nat) (k : String) (v : Json)
    (kvs : List (String × Json)) :
    ∃ t, dumpSMembers st d k v kvs = '"' :: t := by
  cases kvs with
  | nil =>
    exact ⟨escapeChars k.data ++ ('"' :: ':' :: (st.afterColon ++ dumpSVal st d v)), by
      simp [dumpSMembers]⟩
  | cons kv kvs2 =>
    obtain ⟨k2, v2⟩ := kv
    exact ⟨(escapeChars k.data ++ ('"' :: ':' :: (st.afterColon ++ dumpSVal st d v)))
        ++ (',' :: (st.afterComma d ++ dumpSMembers st d k2 v2 kvs2)), by simp [dumpSMembers]⟩

theorem head_not_ws (c : Char) (hd : c = 'n' ∨ c = '"' ∨ c = '[' ∨ c = '\x7b') :
    isJsonWs c = false := by
  rcases hd with h | h | h | h <;> subst h <;> decide

set_option maxHeartbeats 1600000 in
theorem parse_dumpS (st : DumpStyle)
    (h1 : ∀ d l, skipWs (st.afterOpen d ++ l) = skipWs l)
    (h2 : ∀ d l, skipWs (st.afterComma d ++ l) = skipWs l)
    (h3 : ∀ l, skipWs (st.afterColon ++ l) = skipWs l)
    (h4 : ∀ d l, skipWs (st.beforeClose d ++ l) = skipWs l)
    (n : Nat) :
    (∀ d j rest, sizeV j ≤ n → parseVal n (dumpSVal st d j ++ rest) = some rest)
    ∧ (∀ d x xs dd rest, sizeL x xs ≤ n →
        parseElems n (dumpSList st d x xs ++ (st.beforeClose dd ++ (']' :: rest))) = some rest)
    ∧ (∀ d k v kvs dd rest, sizeM v kvs ≤ n →
        parseMembers n (dumpSMembers st d k v kvs ++ (st.beforeClose dd ++ ('\x7d' :: rest)))
          = some rest) := by
  induction n with
  | zero =>
    refine ⟨?_, ?_, ?_⟩
    · intro d j rest h
      exact absurd h (by have := sizeV_pos j; omega)
    · intro d x xs dd rest h
      exact absurd h (by have := sizeL_pos x xs; omega)
    · intro d k v kvs dd rest h
      exact absurd h (by have := sizeM_pos v kvs; omega)
  | succ n ih =>
    obtain ⟨ih1, ih2, ih3⟩ := ih
    refine ⟨?_, ?_, ?_⟩
    · intro d j rest h
      cases j with
      | null =>
        rw [show dumpSVal st d .null = ['n', 'u', 'l', 'l'] from by simp [dumpSVal]]
        rw [parseVal.eq_def]
        simp [skipWs, List.dropWhile_cons, isJsonWs]
      | str s =>
        rw [show dumpSVal st d (.str s) = '"' :: (escapeChars s.data ++ ['"']) from by
          simp [dumpSVal]]
        rw [parseVal.eq_def]
        simp only [List.cons_append, List.append_assoc, List.singleton_append]
        simp [skipWs, List.dropWhile_cons, isJsonWs, parseStrBody_escape]
      | arr xs =>
        cases xs with
        | nil =>
          rw [show dumpSVal st d (.arr []) = ['[', ']'] from by simp [dumpSVal]]
          rw [parseVal.eq_def]
          simp [skipWs, List.dropWhile_cons, isJsonWs]
        | cons x xs =>
          have hs : sizeL x xs ≤ n := by
            rw [show sizeV (.arr (x :: xs)) = 1 + sizeL x xs from by simp [sizeV]] at h
            omega
          obtain ⟨c, t, he, hd⟩ := dumpSList_head st (d + 1) x xs
          have hnw : isJsonWs c = false := head_not_ws c hd
          have hc : ¬ (c = ']') := by
            rcases hd with h' | h' | h' | h' <;> subst h' <;> decide
          rw [show dumpSVal st d (.arr (x :: xs))
              = '[' :: (st.afterOpen (d + 1)
                ++ (dumpSList st (d + 1) x xs ++ (st.beforeClose d ++ [']']))) from by
            simp [dumpSVal]]
          rw [show ('[' :: (st.afterOpen (d + 1)
                ++ (dumpSList st (d + 1) x xs ++ (st.beforeClose d ++ [']'])))) ++ rest
              = '[' :: (st.afterOpen (d + 1)
                ++ (dumpSList st (d + 1) x xs ++ (st.beforeClose d ++ (']' :: rest)))) from by
            simp]
          rw [parseVal.eq_def]
          have hskip : skipWs (st.afterOpen (d + 1)
              ++ (dumpSList st (d + 1) x xs ++ (st.beforeClose d ++ (']' :: rest))))
              = c :: (t ++ (st.beforeClose d ++ (']' :: rest))) := by
            rw [h1, he, List.cons_append, skipWs_cons_of_not_ws _ _ hnw]
          have hcong : parseElems n (st.afterOpen (d + 1)
              ++ (dumpSList st (d + 1) x xs ++ (st.beforeClose d ++ (']' :: rest))))
              = parseElems n (dumpSList st (d + 1) x xs
                ++ (st.beforeClose d ++ (']' :: rest))) :=
            parseElems_congr n _ _ (by rw [h1])
          simp [skipWs_cons_of_not_ws, isJsonWs, hskip, hc, hcong]
          exact ih2 (d + 1) x xs d rest hs
      | obj kvs =>
        cases kvs with
        | nil =>
          rw [show dumpSVal st d (.obj []) = ['\x7b', '\x7d'] from by simp [dumpSVal]]
          rw [parseVal.eq_def]
          simp [skipWs, List.dropWhile_cons, isJsonWs]
        | cons kv kvs =>
          obtain ⟨k, v⟩ := kv
          have hs : sizeM v kvs ≤ n := by
            rw [show sizeV (.obj ((k, v) :: kvs)) = 1 + sizeM v kvs from by simp [sizeV]] at h
            omega
          obtain ⟨t, he⟩ := dumpSMembers_head st (d + 1) k v kvs
          rw [show dumpSVal st d (.obj ((k, v) :: kvs))
              = '\x7b' :: (st.afterOpen (d + 1)
                ++ (dumpSMembers st (d + 1) k v kvs ++ (st.beforeClose d ++ ['\x7d']))) from by
            simp [dumpSVal]]
          rw [show ('\x7b' :: (st.afterOpen (d + 1)
                ++ (dumpSMembers st (d + 1) k v kvs ++ (st.beforeClose d ++ ['\x7d'])))) ++ rest
              = '\x7b' :: (st.afterOpen (d + 1)
                ++ (dumpSMembers st (d + 1) k v kvs
                  ++ (st.beforeClose d ++ ('\x7d' :: rest)))) from by
            simp]
          rw [parseVal.eq_def]
          have hskip : skipWs (st.afterOpen (d + 1)
              ++ (dumpSMembers st (d + 1) k v kvs ++ (st.beforeClose d ++ ('\x7d' :: rest))))
              = '"' :: (t ++ (st.beforeClose d ++ ('\x7d' :: rest))) := by
            rw [h1, he, List.cons_append, skipWs_cons_of_not_ws _ _ (by decide)]
          have hcong : parseMembers n (st.afterOpen (d + 1)
              ++ (dumpSMembers st (d + 1) k v kvs ++ (st.beforeClose d ++ ('\x7d' :: rest))))
              = parseMembers n (dumpSMembers st (d + 1) k v kvs
                ++ (st.beforeClose d ++ ('\x7d' :: rest))) :=
            parseMembers_congr n _ _ (by rw [h1])
          simp [skipWs_cons_of_not_ws, isJsonWs, hskip, hcong]
          exact ih3 (d + 1) k v kvs d rest hs
    · intro d x xs dd rest h
      cases xs with
      | nil =>
        have hx : sizeV x ≤ n := by
          rw [show sizeL x [] = 1 + sizeV x from by simp [sizeL]] at h
          omega
        rw [show dumpSList st d x [] = dumpSVal st d x from by simp [dumpSList]]
        rw [parseElems.eq_def]
        have hp := ih1 d x (st.beforeClose dd ++ (']' :: rest)) hx
        have hskip : skipWs (st.beforeClose dd ++ (']' :: rest)) = ']' :: rest := by
          rw [h4, skipWs_cons_of_not_ws _ _ (by decide)]
        simp [hp, hskip]
      | cons y ys =>
        have hx : sizeV x ≤ n := by
          rw [show sizeL x (y :: ys) = 1 + sizeV x + sizeL y ys from by simp [sizeL]] at h
          have := sizeL_pos y ys
          omega
        have hy : sizeL y ys ≤ n := by
          rw [show sizeL x (y :: ys) = 1 + sizeV x + sizeL y ys from by simp [sizeL]] at h
          have := sizeV_pos x
          omega
        rw [show dumpSList st d x (y :: ys)
            = dumpSVal st d x ++ (',' :: (st.afterComma d ++ dumpSList st d y ys)) from by
          simp [dumpSList]]
        rw [List.append_assoc, List.cons_append]
        rw [parseElems.eq_def]
        have hp := ih1 d x (',' :: (st.afterComma d
          ++ (dumpSList st d y ys ++ (st.beforeClose dd ++ (']' :: rest))))) hx
        have hcong : parseElems n (st.afterComma d
            ++ (dumpSList st d y ys ++ (st.beforeClose dd ++ (']' :: rest))))
            = parseElems n (dumpSList st d y ys ++ (st.beforeClose dd ++ (']' :: rest))) :=
          parseElems_congr n _ _ (by rw [h2])
        simp [hp, skipWs_cons_of_not_ws, isJsonWs, hcong]
        exact ih2 d y ys dd rest hy
    · intro d k v kvs dd rest h
      cases kvs with
      | nil =>
        have hv : sizeV v ≤ n := by
          rw [show sizeM v [] = 1 + sizeV v from by simp [sizeM]] at h
          omega
        rw [show dumpSMembers st d k v []
            = '"' :: (escapeChars k.data ++ ('"' :: ':' :: (st.afterColon ++ dumpSVal st d v)))
          from by simp [dumpSMembers]]
        rw [parseMembers.eq_def]
        simp only [List.cons_append, List.append_assoc]
        have hcongV : parseVal n (st.afterColon
            ++ (dumpSVal st d v ++ (st.beforeClose dd ++ ('\x7d' :: rest))))
            = parseVal n (dumpSVal st d v ++ (st.beforeClose dd ++ ('\x7d' :: rest))) :=
          parseVal_congr n _ _ (by rw [h3])
        have hpV := ih1 d v (st.beforeClose dd ++ ('\x7d' :: rest)) hv
        have hskipC : skipWs (st.beforeClose dd ++ ('\x7d' :: rest)) = '\x7d' :: rest := by
          rw [h4, skipWs_cons_of_not_ws _ _ (by decide)]
        simp [skipWs_cons_of_not_ws, isJsonWs, parseStrBody_escape, hcongV, hpV, hskipC]
      | cons kv kvs2 =>
        obtain ⟨k2, v2⟩ := kv
        have hv : sizeV v ≤ n := by
          rw [show sizeM v ((k2, v2) :: kvs2) = 1 + sizeV v + sizeM v2 kvs2 from by
            simp [sizeM]] at h
          have := sizeM_pos v2 kvs2
          omega
        have hm : sizeM v2 kvs2 ≤ n := by
          rw [show sizeM v ((k2, v2) :: kvs2) = 1 + sizeV v + sizeM v2 kvs2 from by
            simp [sizeM]] at h
          have := sizeV_pos v
          omega
        rw [show dumpSMembers st d k v ((k2, v2) :: kvs2)
            = ('"' :: (escapeChars k.data ++ ('"' :: ':' :: (st.afterColon ++ dumpSVal st d v))))
              ++ (',' :: (st.afterComma d ++ dumpSMembers st d k2 v2 kvs2)) from by
          simp [dumpSMembers]]
        rw [parseMembers.eq_def]
        simp only [List.cons_append, List.append_assoc]
        have hcongV : parseVal n (st.afterColon
            ++ (dumpSVal st d v ++ (',' :: (st.afterComma d
              ++ (dumpSMembers st d k2 v2 kvs2 ++ (st.beforeClose dd ++ ('\x7d' :: rest)))))))
            = parseVal n (dumpSVal st d v ++ (',' :: (st.afterComma d
              ++ (dumpSMembers st d k2 v2 kvs2 ++ (st.beforeClose dd ++ ('\x7d' :: rest)))))) :=
          parseVal_congr n _ _ (by rw [h3])
        have hpV := ih1 d v (',' :: (st.afterComma d
          ++ (dumpSMembers st d k2 v2 kvs2 ++ (st.beforeClose dd ++ ('\x7d' :: rest))))) hv
        have hcongM : parseMembers n (st.afterComma d
            ++ (dumpSMembers st d k2 v2 kvs2 ++ (st.beforeClose dd ++ ('\x7d' :: rest))))
            = parseMembers n (dumpSMembers st d k2 v2 kvs2
              ++ (st.beforeClose dd ++ ('\x7d' :: rest))) :=
          parseMembers_congr n _ _ (by rw [h2])
        simp [skipWs_cons_of_not_ws, isJsonWs, parseStrBody_escape, hcongV, hpV, hcongM]
        exact ih3 d k2 v2 kvs2 dd rest hm

theorem size_le_dumpS (st : DumpStyle) (n : Nat) :
    (∀ d j, sizeV j ≤ n → sizeV j ≤ (dumpSVal st d j).length)
    ∧ (∀ d x xs, sizeL x xs ≤ n → sizeL x xs ≤ (dumpSList st d x xs).length + 1)
    ∧ (∀ d k v kvs, sizeM v kvs ≤ n → sizeM v kvs ≤ (dumpSMembers st d k v kvs).length + 1) := by
  induction n with
  | zero =>
    refine ⟨?_, ?_, ?_⟩
    · intro d j h
      exact absurd h (by have := sizeV_pos j; omega)
    · intro d x xs h
      exact absurd h (by have := sizeL_pos x xs; omega)
    · intro d k v kvs h
      exact absurd h (by have := sizeM_pos v kvs; omega)
  | succ n ih =>
    obtain ⟨ih1, ih2, ih3⟩ := ih
    refine ⟨?_, ?_, ?_⟩
    · intro d j h
      cases j with
      | null => simp [sizeV, dumpSVal]
      | str s => simp [sizeV, dumpSVal]
      | arr xs =>
        cases xs with
        | nil => simp [sizeV, dumpSVal]
        | cons x t =>
          have hs : sizeL x t ≤ n := by
            rw [show sizeV (.arr (x :: t)) = 1 + sizeL x t from by simp [sizeV]] at h
            omega
          have := ih2 (d + 1) x t hs
          rw [show sizeV (.arr (x :: t)) = 1 + sizeL x t from by simp [sizeV]]
          rw [show dumpSVal st d (.arr (x :: t))
              = '[' :: (st.afterOpen (d + 1)
                ++ (dumpSList st (d + 1) x t ++ (st.beforeClose d ++ [']']))) from by
            simp [dumpSVal]]
          simp
          omega
      | obj kvs =>
        cases kvs with
        | nil => simp [sizeV, dumpSVal]
        | cons kv t =>
          obtain ⟨k, v⟩ := kv
          have hs : sizeM v t ≤ n := by
            rw [show sizeV (.obj ((k, v) :: t)) = 1 + sizeM v t from by simp [sizeV]] at h
            omega
          have := ih3 (d + 1) k v t hs
          rw [show sizeV (.obj ((k, v) :: t)) = 1 + sizeM v t from by simp [sizeV]]
          rw [show dumpSVal st d (.obj ((k, v) :: t))
              = '\x7b' :: (st.afterOpen (d + 1)
                ++ (dumpSMembers st (d + 1) k v t ++ (st.beforeClose d ++ ['\x7d']))) from by
            simp [dumpSVal]]
          simp
          omega
    · intro d x xs h
      cases xs with
      | nil =>
        have hx : sizeV x ≤ n := by
          rw [show sizeL x [] = 1 + sizeV x from by simp [sizeL]] at h
          omega
        have := ih1 d x hx
        rw [show sizeL x [] = 1 + sizeV x from by simp [sizeL]]
        rw [show dumpSList st d x [] = dumpSVal st d x from by simp [dumpSList]]
        omega
      | cons y ys =>
        have hx : sizeV x ≤ n := by
          rw [show sizeL x (y :: ys) = 1 + sizeV x + sizeL y ys from by simp [sizeL]] at h
          have := sizeL_pos y ys
          omega
        have hy : sizeL y ys ≤ n := by
          rw [show sizeL x (y :: ys) = 1 + sizeV x + sizeL y ys from by simp [sizeL]] at h
          have := sizeV_pos x
          omega
        have e1 := ih1 d x hx
        have e2 := ih2 d y ys hy
        rw [show sizeL x (y :: ys) = 1 + sizeV x + sizeL y ys from by simp [sizeL]]
        rw [show dumpSList st d x (y :: ys)
            = dumpSVal st d x ++ (',' :: (st.afterComma d ++ dumpSList st d y ys)) from by
          simp [dumpSList]]
        simp
        omega
    · intro d k v kvs h
      cases kvs with
      | nil =>
        have hv : sizeV v ≤ n := by
          rw [show sizeM v [] = 1 + sizeV v from by simp [sizeM]] at h
          omega
        have := ih1 d v hv
        rw [show sizeM v [] = 1 + sizeV v from by simp [sizeM]]
        rw [show dumpSMembers st d k v []
            = '"' :: (escapeChars k.data ++ ('"' :: ':' :: (st.afterColon ++ dumpSVal st d v)))
          from by simp [dumpSMembers]]
        simp
        omega
      | cons kv kvs2 =>
        obtain ⟨k2, v2⟩ := kv
        have hv : sizeV v ≤ n := by
          rw [show sizeM v ((k2, v2) :: kvs2) = 1 + sizeV v + sizeM v2 kvs2 from by
            simp [sizeM]] at h
          have := sizeM_pos v2 kvs2
          omega
        have hm : sizeM v2 kvs2 ≤ n := by
          rw [show sizeM v ((k2, v2) :: kvs2) = 1 + sizeV v + sizeM v2 kvs2 from by
            simp [sizeM]] at h
          have := sizeV_pos v
          omega
        have e1 := ih1 d v hv
        have e2 := ih3 d k2 v2 kvs2 hm
        rw [show sizeM v ((k2, v2) :: kvs2) = 1 + sizeV v + sizeM v2 kvs2 from by simp [sizeM]]
        rw [show dumpSMembers st d k v ((k2, v2) :: kvs2)
            = ('"' :: (escapeChars k.data ++ ('"' :: ':' :: (st.afterColon ++ dumpSVal st d v))))
              ++ (',' :: (st.afterComma d ++ dumpSMembers st d k2 v2 kvs2)) from by
          simp [dumpSMembers]]
        simp
        omega

theorem jsonValid_dumpS (st : DumpStyle)
    (h1 : ∀ d l, skipWs (st.afterOpen d ++ l) = skipWs l)
    (h2 : ∀ d l, skipWs (st.afterComma d ++ l) = skipWs l)
    (h3 : ∀ l, skipWs (st.afterColon ++ l) = skipWs l)
    (h4 : ∀ d l, skipWs (st.beforeClose d ++ l) = skipWs l)
    (j : Json) :
    jsonValid (String.mk (dumpSVal st 0 j)) = true := by
  have hsz : sizeV j ≤ (dumpSVal st 0 j).length := (size_le_dumpS st (sizeV j)).1 0 j le_rfl
  have hp := (parse_dumpS st h1 h2 h3 h4 ((dumpSVal st 0 j).length + 1)).1 0 j [] (by omega)
  rw [List.append_nil] at hp
  unfold jsonValid
  rw [show (String.mk (dumpSVal st 0 j)).data = dumpSVal st 0 j from rfl, hp]

theorem jsonValid_dumps (j : Json) : jsonValid (Json.dumps j) = true :=
  jsonValid_dumpS compactStyle
    (fun _ _ => rfl)
    (fun _ l => skipWs_cons_of_ws ' ' l (by decide))
    (fun l => skipWs_cons_of_ws ' ' l (by decide))
    (fun _ _ => rfl)
    j

theorem jsonValid_dumpsIndent2 (j : Json) : jsonValid (Json.dumpsIndent2 j) = true :=
  jsonValid_dumpS indentStyle
    (fun d l => by
      show skipWs ('\n' :: (indentChars d ++ l)) = skipWs l
      rw [skipWs_cons_of_ws _ _ (by decide), skipWs_indentChars])
    (fun d l => by
      show skipWs ('\n' :: (indentChars d ++ l)) = skipWs l
      rw [skipWs_cons_of_ws _ _ (by decide), skipWs_indentChars])
    (fun l => skipWs_cons_of_ws ' ' l (by decide))
    (fun d l => by
      show skipWs ('\n' :: (indentChars d ++ l)) = skipWs l
      rw [skipWs_cons_of_ws _ _ (by decide), skipWs_indentChars])
    j

/-- Claim C1: the claim states that _clean_meal_data never raises on any
RawMeal, including inputs where an ingredient key is present and non-blank
while the paired measure key is absent. The code evaluated at such an
input instead raises AttributeError from measure.strip() on None: the
embedded normalizer returns that exception for the meal whose only key is
strIngredient1 with value penne. -/
theorem C1_clean_meal_data_raises :
    _clean_meal_data [("strIngredient1", some "penne")] = Except.error noneStripError := by
  rfl

/-- Claim C2: the claim states that with ingredient index 1 present and
non-blank and the paired measure absent, the produced entry equals the
trimmed ingredient alone (here the string Chickpeas). The code evaluated
at that input raises AttributeError instead of producing any entry; the
second conjunct records what the trimmed ingredient would have been. -/
theorem C2_missing_measure_raises_instead_of_entry :
    _clean_meal_data [("strIngredient1", some "  Chickpeas ")] = Except.error noneStripError
    ∧ pyStrip "  Chickpeas " = "Chickpeas" := by
  constructor <;> rfl

/-- Claim C3: the claim states that the request URL is built with the
query percent-encoded. The code interpolates the raw string: for a query
containing a space and an ampersand the built URL contains them verbatim,
and differs from the URL built from the percent-encoded query. -/
theorem C3_search_url_raw_interpolation :
    searchUrl "fish & chips" = "https://www.themealdb.com/api/json/v1/1/search.php?s=fish & chips"
    ∧ percent_encode "fish & chips" = "fish%20%26%20chips"
    ∧ (searchUrl "fish & chips" == SEARCH_URL_BASE ++ percent_encode "fish & chips") = false := by
  refine ⟨rfl, rfl, ?_⟩
  decide

/-- Claim C6: the claim states that a successful response with at least
one record yields the List envelope of the normalized first records. At a
200 response whose single record has strIngredient1 present and the
measure absent, the normalizer raises inside the comprehension and the
code returns the caught-exception Error envelope instead of a List
envelope. -/
theorem C6_first_record_crash_yields_error_envelope :
    get_meal_by_name "Arrabiata"
        (.response 200 (.ok (some [[("strIngredient1", some "egg")]])))
      = Json.obj [("error", Json.str ("Failed to search for meal: " ++ noneStripError))] := by
  rfl

/-- Claim C7: the claim states that for every RawMeal the produced
ingredients sequence exists and selects exactly the present non-blank
indices regardless of measure presence. At a meal whose index 1 is fully
present but whose index 3 has an ingredient with no measure, the loop
raises at index 3 and no sequence is produced at all. -/
theorem C7_later_index_crash_discards_sequence :
    _clean_meal_data
        [("strIngredient1", some "flour"), ("strMeasure1", some "2 cups"),
         ("strIngredient3", some "salt")]
      = Except.error noneStripError := by
  rfl

/-- Claim C8: on the empty RawMeal mapping the normalizer returns the
empty record (the falsy-input branch), with every optional field absent;
the second conjunct records that the ingredient loop would also produce
the empty sequence over the full index range 1..20. -/
theorem C8_empty_meal_normalizes_to_empty_record :
    _clean_meal_data [] = Except.ok (Json.obj [])
    ∧ ingredientsLoop [] (List.range' 1 20) = Except.ok [] := by
  constructor <;> rfl

theorem raise_for_status_ok (status : Nat) (h : status < 400) :
    raise_for_status status = .ok () := by
  unfold raise_for_status
  rw [if_neg (by omega), if_neg (by omega)]

theorem raise_for_status_fails (status : Nat) (h1 : 400 ≤ status) (h2 : status < 600) :
    ∃ e, raise_for_status status = .error e := by
  unfold raise_for_status
  by_cases h : status < 500
  · exact ⟨toString status ++ " Client Error", by rw [if_pos ⟨h1, h⟩]⟩
  · exact ⟨toString status ++ " Server Error", by rw [if_neg (by omega), if_pos ⟨by omega, h2⟩]⟩

/-- Claim C5: on a successful (2xx) response with an empty or missing
result set, get_meal_by_name returns the NotFound envelope carrying the
query in its message (with no error member, and with status not_found),
while get_random_meal returns the Error envelope with message No meal
found. — the asymmetry between the two operations. -/
theorem C5_empty_result_envelopes (q : String) (status : Nat)
    (h1 : 200 ≤ status) (h2 : status < 300) :
    get_meal_by_name q (.response status (.ok none)) = notFoundJson q
    ∧ get_meal_by_name q (.response status (.ok (some []))) = notFoundJson q
    ∧ Json.objLookup "error" (get_meal_by_name q (.response status (.ok none))) = none
    ∧ Json.objLookup "status" (get_meal_by_name q (.response status (.ok none)))
        = some (Json.str "not_found")
    ∧ get_random_meal (.response status (.ok none))
        = Json.obj [("error", Json.str "No meal found.")]
    ∧ get_random_meal (.response status (.ok (some [])))
        = Json.obj [("error", Json.str "No meal found.")] := by
  have hrs : raise_for_status status = .ok () := raise_for_status_ok status (by omega)
  have e1 : get_meal_by_name q (.response status (.ok none)) = notFoundJson q := by
    simp only [get_meal_by_name, get_meal_by_name_try]
    rw [hrs]
  refine ⟨e1, ?_, ?_, ?_, ?_, ?_⟩
  · simp only [get_meal_by_name, get_meal_by_name_try]
    rw [hrs]
  · rw [e1]; rfl
  · rw [e1]; rfl
  · simp only [get_random_meal, get_random_meal_try]
    rw [hrs]
  · simp only [get_random_meal, get_random_meal_try]
    rw [hrs]

/-- Witness for C5 at the query Arrabiata and status 200. -/
theorem C5_witness :
    (200 ≤ 200 ∧ 200 < 300)
    ∧ (get_meal_by_name "Arrabiata" (.response 200 (.ok none)) = notFoundJson "Arrabiata"
      ∧ get_meal_by_name "Arrabiata" (.response 200 (.ok (some []))) = notFoundJson "Arrabiata"
      ∧ Json.objLookup "error" (get_meal_by_name "Arrabiata" (.response 200 (.ok none))) = none
      ∧ Json.objLookup "status" (get_meal_by_name "Arrabiata" (.response 200 (.ok none)))
          = some (Json.str "not_found")
      ∧ get_random_meal (.response 200 (.ok none))
          = Json.obj [("error", Json.str "No meal found.")]
      ∧ get_random_meal (.response 200 (.ok (some [])))
          = Json.obj [("error", Json.str "No meal found.")]) :=
  ⟨⟨by omega, by omega⟩, C5_empty_result_envelopes "Arrabiata" 200 (by omega) (by omega)⟩

/-- Claim C4 (counterexample): the claim covers any non-2xx status, but a
300 status is not raised on by raise_for_status: with a parseable body
holding one record, get_meal_by_name returns the List envelope — not an
Error envelope, and with no error member at all. -/
theorem C4_counterexample_status_300 :
    get_meal_by_name "Arrabiata" (.response 300 (.ok (some [[]])))
      = Json.arr [Json.obj []]
    ∧ Json.objLookup "error"
        (get_meal_by_name "Arrabiata" (.response 300 (.ok (some [[]])))) = none := by
  constructor <;> rfl

/-- Claim C4 (amended): for every transport failure and every response
status in 400..599, both operations return the Error envelope whose
message is the operation prefix Failed to fetch random meal / Failed to
search for meal followed by the cause, and no exception escapes (the
embedded operations are total). -/
theorem C4_failure_yields_failed_envelope (api : ApiResult) (hf : httpFailure api) (q : String) :
    (∃ cause, get_random_meal api
        = Json.obj [("error", Json.str ("Failed to fetch random meal: " ++ cause))])
    ∧ (∃ cause, get_meal_by_name q api
        = Json.obj [("error", Json.str ("Failed to search for meal: " ++ cause))]) := by
  cases api with
  | transportError m =>
    exact ⟨⟨m, rfl⟩, ⟨m, rfl⟩⟩
  | response status body =>
    have hf' : 400 ≤ status ∧ status < 600 := hf
    obtain ⟨e, he⟩ := raise_for_status_fails status hf'.1 hf'.2
    constructor
    · exact ⟨e, by simp only [get_random_meal, get_random_meal_try]; rw [he]⟩
    · exact ⟨e, by simp only [get_meal_by_name, get_meal_by_name_try]; rw [he]⟩

/-- Witness for C4 at a 500 response and the query Pasta. -/
theorem C4_witness :
    httpFailure (.response 500 (.ok none))
    ∧ ((∃ cause, get_random_meal (.response 500 (.ok none))
        = Json.obj [("error", Json.str ("Failed to fetch random meal: " ++ cause))])
      ∧ (∃ cause, get_meal_by_name "Pasta" (.response 500 (.ok none))
        = Json.obj [("error", Json.str ("Failed to search for meal: " ++ cause))])) :=
  ⟨⟨by omega, by omega⟩,
    C4_failure_yields_failed_envelope (.response 500 (.ok none)) ⟨by omega, by omega⟩ "Pasta"⟩

/-- Claim C9: for every continuation and context, the logging middleware
forwards the wrapped call exactly once (one forward event in its trace),
its first logged line is the tool name before the forwarding, on normal
completion it returns the continuation outcome unchanged and logs the raw
result after the forwarding, and when the continuation raises it
propagates that exception unchanged with no result line logged. -/
theorem C9_logging_middleware_transparent
    (next : FunctionInvocationContext → Except String FunctionInvocationContext)
    (context : FunctionInvocationContext) :
    (logging_function_middleware next context).2.countP MWEvent.isForward = 1
    ∧ (logging_function_middleware next context).2.head?
        = some (.print ("Calling function: " ++ context.functionName))
    ∧ (∀ c2, next context = .ok c2 →
        (logging_function_middleware next context).1 = .ok c2
        ∧ (logging_function_middleware next context).2
            = [.print ("Calling function: " ++ context.functionName),
               .forward context,
               .print ("Function result: " ++ str_of_result c2.result)])
    ∧ (∀ e, next context = .error e →
        (logging_function_middleware next context).1 = .error e
        ∧ (logging_function_middleware next context).2
            = [.print ("Calling function: " ++ context.functionName),
               .forward context]) := by
  cases hn : next context with
  | ok c2 =>
    refine ⟨?_, ?_, ?_, ?_⟩
    · simp [logging_function_middleware, hn, List.countP_cons, MWEvent.isForward]
    · simp [logging_function_middleware, hn]
    · intro c2' h
      injection h with h
      subst h
      simp [logging_function_middleware, hn]
    · intro e h
      exact absurd h (by simp)
  | error e =>
    refine ⟨?_, ?_, ?_, ?_⟩
    · simp [logging_function_middleware, hn, List.countP_cons, MWEvent.isForward]
    · simp [logging_function_middleware, hn]
    · intro c2' h
      exact absurd h (by simp)
    · intro e' h
      injection h with h
      subst h
      simp [logging_function_middleware, hn]

/-- Witness for C9: a continuation that completes normally with a filled
result slot, at a concrete context, run through the middleware via the
transparency theorem. -/
theorem C9_witness :
    (logging_function_middleware
        (fun _ => .ok ⟨"get_random_meal", some "res"⟩) ⟨"get_random_meal", none⟩).1
      = .ok ⟨"get_random_meal", some "res"⟩
    ∧ (logging_function_middleware
        (fun _ => .ok ⟨"get_random_meal", some "res"⟩) ⟨"get_random_meal", none⟩).2
      = [.print ("Calling function: " ++ "get_random_meal"),
         .forward ⟨"get_random_meal", none⟩,
         .print ("Function result: " ++ str_of_result (some "res"))] :=
  (C9_logging_middleware_transparent
      (fun _ => .ok ⟨"get_random_meal", some "res"⟩) ⟨"get_random_meal", none⟩).2.2.1
    ⟨"get_random_meal", some "res"⟩ rfl

/-- Claim C10: every string returned by get_random_meal and by
get_meal_by_name — on success (json.dumps with indent=2), on an empty
result set and on a caught exception (plain json.dumps) — is the
serialization of an envelope value and is a syntactically valid JSON
document: the whitespace-aware recognizer consumes it entirely. -/
theorem C10_all_outputs_valid_json (api : ApiResult) (q : String) :
    jsonValid (get_random_meal_str api) = true
    ∧ jsonValid (get_meal_by_name_str q api) = true := by
  constructor
  · cases api with
    | transportError m => exact jsonValid_dumps _
    | response status body =>
      simp only [get_random_meal_str]
      cases raise_for_status status with
      | error e => exact jsonValid_dumps _
      | ok u =>
        cases body with
        | error e => exact jsonValid_dumps _
        | ok meals =>
          cases meals with
          | none => exact jsonValid_dumps _
          | some ms =>
            cases ms with
            | nil => exact jsonValid_dumps _
            | cons m tl =>
              cases hcm : _clean_meal_data m with
              | error e =>
                simp only [hcm]
                exact jsonValid_dumps _
              | ok meal =>
                simp only [hcm]
                exact jsonValid_dumpsIndent2 _
  · cases api with
    | transportError m => exact jsonValid_dumps _
    | response status body =>
      simp only [get_meal_by_name_str]
      cases raise_for_status status with
      | error e => exact jsonValid_dumps _
      | ok u =>
        cases body with
        | error e => exact jsonValid_dumps _
        | ok meals =>
          cases meals with
          | none => exact jsonValid_dumps _
          | some ms =>
            cases ms with
            | nil => exact jsonValid_dumps _
            | cons m tl =>
              cases hcm : List.mapM _clean_meal_data ((m :: tl).take 3) with
              | error e =>
                simp only [hcm]
                exact jsonValid_dumps _
              | ok results =>
                simp only [hcm]
                exact jsonValid_dumpsIndent2 _
